import Mathlib

/-!
# fastproxy.c : header sniffer, response selection and relay loop

A shallow embedding of `src/fastproxy.c`.  Each C function becomes a Lean function that
takes the answers of the operating system as explicit arguments and returns the list of
system calls it made, in program order.

Conventions of the embedding:

* a byte is a natural number (the code only copies and compares bytes);
* a descriptor and a system-call return value are integers;
* `recv(fd, p, 1, 0)` of the header loop is answered by an oracle `Nat → Recv1`, indexed
  by the number of header reads made so far;
* the reads and writes of one relay direction are answered by finite scripts; when a
  script is used up the call does not return (`ExitReason.blocked`), so a run over a
  script is a finite prefix of a run of the real loop;
* `header_buf` is an automatic array that the code never initialises, so its prior
  content is an argument (`stack`);
* `malloc` and `pthread_create` are taken to succeed, `free` is not recorded.
-/

namespace FastProxy

/-- One byte of a socket stream or of memory. -/
abbrev Byte := Nat

/-- The bytes of a string literal of the source, without the terminating NUL. -/
def bytes (s : String) : List Byte := s.toList.map Char.toNat

/-- Constant `BUFFER_SIZE` of the source. -/
def BUFFER_SIZE : Nat := 1048576

/-- Value of `sizeof(header_buf)`. -/
def HEADER_BUF_SIZE : Nat := 16384

/-- A system call made by the program, with its arguments and its answer. -/
inductive Event where
  /-- Call `recv(fd, buf + off, len, 0)` returned `n` and stored `data` at `buf + off`. -/
  | recv (fd : Int) (off len : Nat) (n : Int) (data : List Byte)
  /-- Call `send(fd, p, |offered|, 0)` returned `ret`; `offered` are the bytes at `p`. -/
  | send (fd : Int) (offered : List Byte) (ret : Int)
  /-- Call `shutdown(fd, SHUT_RD)`. -/
  | shutdownRd (fd : Int)
  /-- Call `shutdown(fd, SHUT_WR)`. -/
  | shutdownWr (fd : Int)
  /-- Call `socket(AF_INET, SOCK_STREAM, 0)` returned `ret`. -/
  | socket (ret : Int)
  /-- Call `optimize_socket(fd)`: four `setsockopt` calls whose results are ignored. -/
  | optimize (fd : Int)
  /-- Call `connect(fd, 127.0.0.1:SSH_PORT)` returned `ret`. -/
  | connect (fd : Int) (ret : Int)
  /-- Call `close(fd)`. -/
  | close (fd : Int)
  /-- Call `pthread_create(_, NULL, pipe_data, {src, dst})`. -/
  | threadCreate (src dst : Int)
  /-- Call `pthread_join` returned for the thread running `pipe_data` on `{src, dst}`. -/
  | threadJoin (src dst : Int)
  deriving DecidableEq

/-! ## `pipe_data` -/

/-- Answer of one `recv(fds[0], buffer, BUFFER_SIZE, 0)`. -/
inductive RecvResult where
  /-- The call returned `chunk.length` and stored `chunk` at the start of `buffer`. -/
  | data (chunk : List Byte)
  /-- The call returned `-1`. -/
  | error

/-- Return value `n` of the call. -/
def RecvResult.n : RecvResult → Int
  | .data chunk => chunk.length
  | .error => -1

/-- Bytes the call stored in `buffer`. -/
def RecvResult.chunk : RecvResult → List Byte
  | .data chunk => chunk
  | .error => []

/-- Why a run of the relay loop stopped. -/
inductive ExitReason where
  /-- Statement `if (n <= 0) break;`. -/
  | recvEnd
  /-- Statement `if (sent != n) break;`. -/
  | sentMismatch
  /-- A `recv` or `send` has not returned: the script is used up. -/
  | blocked
  deriving DecidableEq

/-- Result of the inner loop `while (sent < n)`. -/
structure SendLoopResult where
  /-- Final value of `sent`, or `none` when a `send` has not returned. -/
  sent : Option Nat
  /-- Answers of `send` not used yet. -/
  rest : List (Nat → Int)
  /-- The `send` calls made. -/
  events : List Event

/-- The inner loop of `pipe_data`:
`while (sent < n) { s = send(fds[1], buffer + sent, n - sent, 0); if (s <= 0) break; sent += s; }`.
Each answer of `send` is a function of the count requested. -/
def sendLoop (dst : Int) (chunk : List Byte) : List (Nat → Int) → Nat → SendLoopResult
  | [], sent =>
    if sent < chunk.length then ⟨none, [], []⟩ else ⟨some sent, [], []⟩
  | f :: rest, sent =>
    if sent < chunk.length then
      let s := f (chunk.length - sent)
      let ev := Event.send dst (chunk.drop sent) s
      if s ≤ 0 then ⟨some sent, rest, [ev]⟩
      else
        let r := sendLoop dst chunk rest (sent + s.toNat)
        ⟨r.sent, r.rest, ev :: r.events⟩
    else ⟨some sent, f :: rest, []⟩

/-- The outer loop `while (1)` of `pipe_data`, up to its `break`. -/
def pipeLoop (src dst : Int) : List RecvResult → List (Nat → Int) → ExitReason × List Event
  | [], _ => (.blocked, [])
  | r :: rs, sends =>
    let ev := Event.recv src 0 BUFFER_SIZE r.n r.chunk
    if r.n ≤ 0 then (.recvEnd, [ev])
    else
      let sl := sendLoop dst r.chunk sends 0
      match sl.sent with
      | none => (.blocked, ev :: sl.events)
      | some sent =>
        if sent ≠ r.chunk.length then (.sentMismatch, ev :: sl.events)
        else
          let k := pipeLoop src dst rs sl.rest
          (k.1, ev :: (sl.events ++ k.2))

/-- A run of `pipe_data`. -/
structure PipeRun where
  /-- Why the loop stopped. -/
  exit : ExitReason
  /-- The system calls made, in order. -/
  trace : List Event
  deriving DecidableEq

/-- Function `pipe_data` with `fds = {src, dst}`: the loop, then
`shutdown(fds[0], SHUT_RD); shutdown(fds[1], SHUT_WR);`. -/
def pipe_data (src dst : Int) (recvs : List RecvResult) (sends : List (Nat → Int)) : PipeRun :=
  let k := pipeLoop src dst recvs sends
  match k.1 with
  | .blocked => ⟨.blocked, k.2⟩
  | why => ⟨why, k.2 ++ [Event.shutdownRd src, Event.shutdownWr dst]⟩

/-- Bytes that the `recv` calls on `fd` returned, in order. -/
def bytesReceived (fd : Int) : List Event → List Byte
  | [] => []
  | Event.recv fd1 _ _ _ data :: tr =>
    if fd1 = fd then data ++ bytesReceived fd tr else bytesReceived fd tr
  | _ :: tr => bytesReceived fd tr

/-- Bytes that the `send` calls on `fd` accepted, in order: a call that returned `ret > 0`
accepted the first `ret` bytes offered. -/
def bytesAccepted (fd : Int) : List Event → List Byte
  | [] => []
  | Event.send fd1 offered ret :: tr =>
    if fd1 = fd then offered.take ret.toNat ++ bytesAccepted fd tr else bytesAccepted fd tr
  | _ :: tr => bytesAccepted fd tr

/-! ## `handle_connection` -/

/-- Structure `connection_t`. -/
structure connection_t where
  /-- Descriptor returned by `accept`. -/
  client_fd : Int
  /-- Descriptor of the backend socket; `main` stores `-1`. -/
  ssh_fd : Int

/-- Answer of one `recv(conn->client_fd, header_buf + header_len, 1, 0)`. -/
structure Recv1 where
  /-- Return value of the call. -/
  n : Int
  /-- Byte the call stored, when `n > 0`. -/
  byte : Byte

/-- How the header loop was left. -/
inductive SniffExit where
  /-- Statement `if (n <= 0) goto cleanup;`. -/
  | readFail
  /-- Statement `if (header_len >= 4 && memcmp(...) == 0) break;`. -/
  | terminator
  /-- Loop condition `header_len < sizeof(header_buf) - 1` false. -/
  | cap
  /-- The recursion bound of the embedding was reached with the loop still running. -/
  | outOfFuel
  deriving DecidableEq

/-- State of the header loop. -/
structure SniffState where
  /-- Content of `header_buf`, by index. -/
  header_buf : Nat → Byte
  /-- Variable `header_len`. -/
  header_len : Nat
  /-- The `recv` calls made so far, oldest first. -/
  events : List Event

/-- Store one byte in a buffer. -/
def poke (buf : Nat → Byte) (i : Nat) (b : Byte) : Nat → Byte :=
  fun j => if j = i then b else buf j

/-- Test `memcmp(header_buf + header_len - 4, "\r\n\r\n", 4) == 0`. -/
def endsWithCRLFCRLF (buf : Nat → Byte) (header_len : Nat) : Bool :=
  buf (header_len - 4) = 13 && buf (header_len - 3) = 10 &&
  buf (header_len - 2) = 13 && buf (header_len - 1) = 10

/-- The header loop of `handle_connection`:
`while (header_len < sizeof(header_buf) - 1) { n = recv(client_fd, header_buf + header_len, 1, 0);
if (n <= 0) goto cleanup; header_len++; if (header_len >= 4 && memcmp(...) == 0) break; }`.
The first argument bounds the number of iterations of the embedding. -/
def sniffLoop (client_fd : Int) (reads : Nat → Recv1) : Nat → SniffState → SniffExit × SniffState
  | 0, st => (.outOfFuel, st)
  | fuel + 1, st =>
    if st.header_len < HEADER_BUF_SIZE - 1 then
      let r := reads st.events.length
      if r.n ≤ 0 then
        (.readFail, { st with events := st.events ++ [Event.recv client_fd st.header_len 1 r.n []] })
      else
        let st1 : SniffState :=
          { header_buf := poke st.header_buf st.header_len r.byte
            header_len := st.header_len + 1
            events := st.events ++ [Event.recv client_fd st.header_len 1 r.n [r.byte]] }
        if 4 ≤ st1.header_len && endsWithCRLFCRLF st1.header_buf st1.header_len then
          (.terminator, st1)
        else sniffLoop client_fd reads fuel st1
    else (.cap, st)

/-- The header loop started as the source starts it: `header_len = 0`, `header_buf` holding
whatever the stack held. -/
def sniff (client_fd : Int) (reads : Nat → Recv1) (stack : Nat → Byte) : SniffExit × SniffState :=
  sniffLoop client_fd reads HEADER_BUF_SIZE ⟨stack, 0, []⟩

/-- The header frame: the bytes `header_buf[0 .. header_len - 1]`. -/
def SniffState.frame (st : SniffState) : List Byte :=
  (List.range st.header_len).map st.header_buf

/-- The C string that starts at index `i` of an object with `room` bytes left from `i`:
the bytes before the first NUL.  Value `none` when there is no NUL in the object: a string
function then reads past its end, which the C standard leaves undefined. -/
def c_string (mem : Nat → Byte) : Nat → Nat → Option (List Byte)
  | 0, _ => none
  | room + 1, i =>
    if mem i = 0 then some []
    else (c_string mem room (i + 1)).map (fun s => mem i :: s)

/-- Test `strstr(haystack, needle) != NULL` on a C string. -/
def strstr (haystack needle : List Byte) : Bool :=
  decide (needle <:+: haystack)

/-- First response literal of the source. -/
def RESPONSE_101 : List Byte :=
  bytes "HTTP/1.1 101 Switching Protocols\r\nUpgrade: websocket\r\nConnection: Upgrade\r\n\r\n"

/-- Second response literal of the source. -/
def RESPONSE_200 : List Byte :=
  bytes "HTTP/1.1 200 Connection Established\r\n\r\n"

/-- Expression `(strstr(header_buf, "websocket") || strstr(header_buf, "Upgrade")) ? ... : ...`.
Value `none` when `header_buf` holds no NUL. -/
def selectResponse (header_buf : Nat → Byte) : Option (List Byte) :=
  match c_string header_buf HEADER_BUF_SIZE 0 with
  | none => none
  | some s =>
    some (if strstr s (bytes "websocket") || strstr s (bytes "Upgrade")
      then RESPONSE_101 else RESPONSE_200)

/-- Everything outside the program that a run of `handle_connection` depends on. -/
structure Env where
  /-- Answers of the one-byte header reads, by read number. -/
  headerReads : Nat → Recv1
  /-- Prior content of `header_buf`. -/
  stack : Nat → Byte
  /-- Return value of `socket`. -/
  socketRet : Int
  /-- Return value of `connect`. -/
  connectRet : Int
  /-- Return value of the `send` of the response. -/
  responseSendRet : Int
  /-- Answers of `recv` on the client in the client-to-backend direction. -/
  c2sRecv : List RecvResult
  /-- Answers of `send` on the backend in the client-to-backend direction. -/
  c2sSend : List (Nat → Int)
  /-- Answers of `recv` on the backend in the backend-to-client direction. -/
  s2cRecv : List RecvResult
  /-- Answers of `send` on the client in the backend-to-client direction. -/
  s2cSend : List (Nat → Int)

/-- Where a run of `handle_connection` ended. -/
inductive Outcome where
  /-- Left the header loop by `goto cleanup`. -/
  | headerReadFailed
  /-- Call `socket` returned a negative value. -/
  | socketFailed
  /-- Call `connect` returned a negative value. -/
  | connectFailed
  /-- Call `strstr` on a `header_buf` without NUL. -/
  | undefinedBehaviour
  /-- A `pthread_join` has not returned. -/
  | relayPending
  /-- Both joins returned and the function ran to its end. -/
  | relayed
  /-- The header loop of the embedding ran out of fuel. -/
  | outOfFuel
  deriving DecidableEq

/-- A run of `handle_connection`. -/
structure HandlerRun where
  /-- Where the run ended. -/
  outcome : Outcome
  /-- The system calls of the handler thread, in order. -/
  trace : List Event
  /-- The header frame captured. -/
  frame : List Byte
  /-- The response passed to `send`, when that statement was reached. -/
  response : Option (List Byte)
  /-- The client-to-backend direction, when it was started. -/
  c2s : Option PipeRun
  /-- The backend-to-client direction, when it was started. -/
  s2c : Option PipeRun

/-- Label `cleanup:` : `close(conn->client_fd); if (conn->ssh_fd > 0) close(conn->ssh_fd);`. -/
def cleanup (conn : connection_t) : List Event :=
  Event.close conn.client_fd :: (if conn.ssh_fd > 0 then [Event.close conn.ssh_fd] else [])

/-- The statements of `handle_connection` from `pthread_create` to the end.  A join returns
once its thread has returned; the handler goes on to `cleanup` after both joins. -/
def relay (env : Env) (conn : connection_t) (pre : List Event) (frame response : List Byte) :
    HandlerRun :=
  let t1 := pipe_data conn.client_fd conn.ssh_fd env.c2sRecv env.c2sSend
  let t2 := pipe_data conn.ssh_fd conn.client_fd env.s2cRecv env.s2cSend
  let created := pre ++
    [Event.threadCreate conn.client_fd conn.ssh_fd, Event.threadCreate conn.ssh_fd conn.client_fd]
  if t1.exit = .blocked then
    ⟨.relayPending, created, frame, some response, some t1, some t2⟩
  else if t2.exit = .blocked then
    ⟨.relayPending, created ++ [Event.threadJoin conn.client_fd conn.ssh_fd],
      frame, some response, some t1, some t2⟩
  else
    ⟨.relayed, created ++
      [Event.threadJoin conn.client_fd conn.ssh_fd, Event.threadJoin conn.ssh_fd conn.client_fd]
      ++ cleanup conn, frame, some response, some t1, some t2⟩

/-- The statements of `handle_connection` after the header loop, from `socket` on. -/
def dial (env : Env) (conn : connection_t) (st : SniffState) : HandlerRun :=
  let conn1 : connection_t := { conn with ssh_fd := env.socketRet }
  let evs := st.events ++ [Event.socket env.socketRet]
  if conn1.ssh_fd < 0 then
    ⟨.socketFailed, evs ++ cleanup conn1, st.frame, none, none, none⟩
  else
    let evs := evs ++ [Event.optimize conn1.ssh_fd, Event.connect conn1.ssh_fd env.connectRet]
    if env.connectRet < 0 then
      ⟨.connectFailed, evs ++ [Event.close conn1.ssh_fd] ++ cleanup conn1,
        st.frame, none, none, none⟩
    else
      match selectResponse st.header_buf with
      | none => ⟨.undefinedBehaviour, evs, st.frame, none, none, none⟩
      | some response =>
        relay env conn1 (evs ++ [Event.send conn1.client_fd response env.responseSendRet])
          st.frame response

/-- Function `handle_connection`. -/
def handle_connection (env : Env) (conn : connection_t) : HandlerRun :=
  match sniff conn.client_fd env.headerReads env.stack with
  | (.readFail, st) => ⟨.headerReadFailed, st.events ++ cleanup conn, st.frame, none, none, none⟩
  | (.outOfFuel, st) => ⟨.outOfFuel, st.events, st.frame, none, none, none⟩
  | (_, st) => dial env conn st

/-- The connection record that `main` passes to `handle_connection` for an accepted
descriptor: `conn->client_fd = client_fd; conn->ssh_fd = -1;`. -/
def accepted (client_fd : Int) : connection_t := ⟨client_fd, -1⟩

/-- Header reads that deliver the bytes of `l` one by one and then end of stream. -/
def readsOf (l : List Byte) : Nat → Recv1 :=
  fun i => if i < l.length then ⟨1, l.getD i 0⟩ else ⟨0, 0⟩

/-- A stack that holds `l` from index `off` on and NUL everywhere else. -/
def stackWith (off : Nat) (l : List Byte) : Nat → Byte :=
  fun i => if off ≤ i then l.getD (i - off) 0 else 0

/-- An occurrence of `"\r\n\r\n"` in the stream `s` ends at byte position `j`, that is,
it is made of the bytes `s (j - 4) .. s (j - 1)`. -/
def terminatorEndsAt (s : Nat → Byte) (j : Nat) : Prop :=
  4 ≤ j ∧ s (j - 4) = 13 ∧ s (j - 3) = 10 ∧ s (j - 2) = 13 ∧ s (j - 1) = 10

instance (s : Nat → Byte) (j : Nat) : Decidable (terminatorEndsAt s j) := by
  unfold terminatorEndsAt; infer_instance

/-- The byte stream that the header reads deliver. -/
def streamOf (reads : Nat → Recv1) : Nat → Byte := fun i => (reads i).byte

/-- The event of the `i`-th header read when it succeeds. -/
def headerRead (client_fd : Int) (reads : Nat → Recv1) (i : Nat) : Event :=
  Event.recv client_fd i 1 (reads i).n [(reads i).byte]

/-- The state of the header loop after `m` successful reads. -/
def sniffed (client_fd : Int) (reads : Nat → Recv1) (stack : Nat → Byte) (m : Nat) :
    SniffState :=
  ⟨fun i => if i < m then (reads i).byte else stack i, m,
    (List.range m).map (headerRead client_fd reads)⟩

/-- The state of the header loop when read number `m` fails after `m` successful reads. -/
def sniffFailed (client_fd : Int) (reads : Nat → Recv1) (stack : Nat → Byte) (m : Nat) :
    SniffState :=
  ⟨fun i => if i < m then (reads i).byte else stack i, m,
    (List.range m).map (headerRead client_fd reads) ++ [Event.recv client_fd m 1 (reads m).n []]⟩

/-- Event is a `recv`. -/
def Event.isRecv : Event → Bool
  | .recv .. => true
  | _ => false

/-- Event is a `send`. -/
def Event.isSend : Event → Bool
  | .send .. => true
  | _ => false

/-- Event is a `socket`. -/
def Event.isSocket : Event → Bool
  | .socket .. => true
  | _ => false

/-- Event is a `close`. -/
def Event.isClose : Event → Bool
  | .close .. => true
  | _ => false

/-- Event is a `shutdown`. -/
def Event.isShutdown : Event → Bool
  | .shutdownRd .. => true
  | .shutdownWr .. => true
  | _ => false

/-- Event is a `pthread_create`. -/
def Event.isThreadCreate : Event → Bool
  | .threadCreate .. => true
  | _ => false

/-- Events of the handler thread from `socket` to `connect`. -/
def dialEvents (env : Env) : List Event :=
  [Event.socket env.socketRet, Event.optimize env.socketRet,
    Event.connect env.socketRet env.connectRet]

/-- Header reads that deliver the bytes of `l` one by one and the byte `fill` ever after. -/
def readsThen (l : List Byte) (fill : Byte) : Nat → Recv1 :=
  fun i => ⟨1, l.getD i fill⟩

/-- An environment with the given header reads, zeroed stack, descriptor `4` from `socket`,
the given answers of `connect` and of the `send` of the response, a client that sends
`[1, 2]` and closes, and a backend that sends `[7]` and closes. -/
def envOf (reads : Nat → Recv1) (stack : Nat → Byte) (connectRet sendRet : Int) : Env :=
  ⟨reads, stack, 4, connectRet, sendRet,
    [.data [1, 2], .data []], [fun r => r], [.data [7], .data []], [fun r => r]⟩

/-- The request of the scenario of the specification. -/
def GET_REQUEST : List Byte := bytes "GET / HTTP/1.1\r\nHost: x\r\n\r\n"

/-- A header whose first byte is NUL and that goes on with an upgrade request. -/
def NUL_UPGRADE : List Byte := 0 :: bytes "Upgrade: websocket\r\n\r\n"

/-! ## Lemmas on traces -/

theorem bytesAccepted_append (fd : Int) (a b : List Event) :
    bytesAccepted fd (a ++ b) = bytesAccepted fd a ++ bytesAccepted fd b := by
  induction a with
  | nil => rfl
  | cons e a ih =>
    cases e <;> simp [bytesAccepted, ih]
    split <;> simp

theorem bytesReceived_append (fd : Int) (a b : List Event) :
    bytesReceived fd (a ++ b) = bytesReceived fd a ++ bytesReceived fd b := by
  induction a with
  | nil => rfl
  | cons e a ih =>
    cases e <;> simp [bytesReceived, ih]
    split <;> simp

/-- What the inner loop does to the chunk: the `send` calls accept, in order, the bytes
`chunk[sent .. sent + m - 1]` for some `m`, and a loop that returns has `sent` advanced
by `m`. -/
theorem sendLoop_spec (dst : Int) (chunk : List Byte) (sends : List (Nat → Int))
    (hsend : ∀ f ∈ sends, ∀ r, f r ≤ r) (sent : Nat) (hle : sent ≤ chunk.length) :
    ∃ m, sent + m ≤ chunk.length ∧
      bytesAccepted dst (sendLoop dst chunk sends sent).events = (chunk.drop sent).take m ∧
      (∀ fd, bytesReceived fd (sendLoop dst chunk sends sent).events = []) ∧
      (∀ s1, (sendLoop dst chunk sends sent).sent = some s1 → s1 = sent + m) ∧
      (∀ f ∈ (sendLoop dst chunk sends sent).rest, ∀ r, f r ≤ r) := by
  induction sends generalizing sent with
  | nil =>
    refine ⟨0, by simpa using hle, ?_, ?_, ?_, ?_⟩
    · unfold sendLoop; split <;> simp [bytesAccepted]
    · intro fd; unfold sendLoop; split <;> simp [bytesReceived]
    · intro s1 h1; unfold sendLoop at h1; split at h1 <;> simp_all
    · unfold sendLoop; split <;> simp
  | cons f rest ih =>
    have hrest : ∀ g ∈ rest, ∀ r, g r ≤ r := fun g hg => hsend g (List.mem_cons_of_mem _ hg)
    have hf : ∀ r, f r ≤ r := hsend f (List.mem_cons_self _ _)
    by_cases hlt : sent < chunk.length
    · by_cases hs : f (chunk.length - sent) ≤ 0
      · refine ⟨0, by simpa using hle, ?_, ?_, ?_, ?_⟩
        · have h0 : (f (chunk.length - sent)).toNat = 0 := by omega
          simp [sendLoop, hlt, hs, bytesAccepted, h0]
        · intro fd; simp [sendLoop, hlt, hs, bytesReceived]
        · intro s1 h1; simp [sendLoop, hlt, hs] at h1; omega
        · simpa [sendLoop, hlt, hs] using hrest
      · have hb := hf (chunk.length - sent)
        have hk : sent + (f (chunk.length - sent)).toNat ≤ chunk.length := by omega
        obtain ⟨m, hm, hacc, hrcv, hsent, hr⟩ := ih hrest _ hk
        refine ⟨(f (chunk.length - sent)).toNat + m, by omega, ?_, ?_, ?_, ?_⟩
        · simp only [sendLoop, hlt, hs, if_true, if_false, bytesAccepted, hacc]
          rw [List.take_add, List.drop_drop]
        · intro fd; simp only [sendLoop, hlt, hs, if_true, if_false, bytesReceived, hrcv]
        · intro s1 h1
          simp only [sendLoop, hlt, hs, if_true, if_false] at h1
          have := hsent s1 h1
          omega
        · simpa only [sendLoop, hlt, hs, if_true, if_false] using hr
    · refine ⟨0, by simpa using hle, ?_, ?_, ?_, ?_⟩
      · simp [sendLoop, hlt, bytesAccepted]
      · intro fd; simp [sendLoop, hlt, bytesReceived]
      · intro s1 h1; simp [sendLoop, hlt] at h1; omega
      · simpa [sendLoop, hlt] using hsend

/-- The relay loop forwards what it reads: accepted bytes are a prefix of received bytes,
and the two are equal when the loop is left at `if (n <= 0) break;`. -/
theorem pipeLoop_spec (src dst : Int) (recvs : List RecvResult) (sends : List (Nat → Int))
    (hsend : ∀ f ∈ sends, ∀ r, f r ≤ r) :
    bytesAccepted dst (pipeLoop src dst recvs sends).2 <+:
        bytesReceived src (pipeLoop src dst recvs sends).2 ∧
      ((pipeLoop src dst recvs sends).1 = .recvEnd →
        bytesAccepted dst (pipeLoop src dst recvs sends).2 =
          bytesReceived src (pipeLoop src dst recvs sends).2) := by
  induction recvs generalizing sends with
  | nil => simp [pipeLoop, bytesAccepted, bytesReceived]
  | cons r rs ih =>
    by_cases hn : r.n ≤ 0
    · have hc : r.chunk = [] := by
        cases r with
        | data chunk =>
          simp only [RecvResult.n] at hn
          have : chunk.length = 0 := by omega
          simpa [RecvResult.chunk] using this
        | error => rfl
      simp [pipeLoop, hn, bytesAccepted, bytesReceived, hc]
    · obtain ⟨m, hm, hacc, hrcv, hsent, hr⟩ :=
        sendLoop_spec dst r.chunk sends hsend 0 (Nat.zero_le _)
      simp only [List.drop_zero, Nat.zero_add] at hacc hm hsent
      unfold pipeLoop
      simp only [hn, if_false]
      cases hso : (sendLoop dst r.chunk sends 0).sent with
      | none =>
        simp only [bytesAccepted, bytesReceived, hacc, hrcv, if_true, List.append_nil]
        exact ⟨List.take_prefix _ _, by simp⟩
      | some s1 =>
        by_cases hne : s1 = r.chunk.length
        · have hm' : m = r.chunk.length := by
            have := hsent s1 hso
            omega
          obtain ⟨ih1, ih2⟩ := ih (sendLoop dst r.chunk sends 0).rest hr
          simp only [hne, ne_eq, not_true_eq_false, if_false, bytesAccepted, bytesReceived,
            if_true, bytesAccepted_append, bytesReceived_append, hacc, hrcv, hm', List.take_length,
            List.nil_append]
          refine ⟨(List.prefix_append_right_inj _).2 ih1, fun h => ?_⟩
          rw [ih2 h]
        · simp only [ne_eq, hne, not_false_eq_true, if_true, bytesAccepted, bytesReceived,
            hacc, hrcv, List.append_nil, List.nil_append]
          exact ⟨List.take_prefix _ _, by simp⟩

/-- The trace of `pipe_data` is the trace of its loop, followed by the two `shutdown`
calls when the loop was left. -/
theorem pipe_data_trace (src dst : Int) (recvs : List RecvResult) (sends : List (Nat → Int)) :
    (pipe_data src dst recvs sends).exit = (pipeLoop src dst recvs sends).1 ∧
    (pipe_data src dst recvs sends).trace = (pipeLoop src dst recvs sends).2 ++
      (if (pipeLoop src dst recvs sends).1 = .blocked then []
        else [Event.shutdownRd src, Event.shutdownWr dst]) := by
  unfold pipe_data
  cases h : (pipeLoop src dst recvs sends).1 <;> simp [h]

/-! ## Lemmas on the header loop -/

theorem sniffed_zero (client_fd : Int) (reads : Nat → Recv1) (stack : Nat → Byte) :
    sniffed client_fd reads stack 0 = ⟨stack, 0, []⟩ := by
  simp [sniffed]

theorem poke_sniffed (reads : Nat → Recv1) (stack : Nat → Byte) (m : Nat) :
    poke (fun i => if i < m then (reads i).byte else stack i) m (reads m).byte =
      fun i => if i < m + 1 then (reads i).byte else stack i := by
  funext j
  unfold poke
  by_cases h1 : j = m
  · subst h1; simp
  · by_cases h2 : j < m
    · have : j < m + 1 := by omega
      simp [h1, h2, this]
    · have : ¬ j < m + 1 := by omega
      simp [h1, h2, this]

/-- The test of the loop on the state after `m + 1` reads is the test on the stream. -/
theorem endsWith_sniffed (client_fd : Int) (reads : Nat → Recv1) (stack : Nat → Byte) (m : Nat) :
    ((4 ≤ (sniffed client_fd reads stack m).header_len &&
      endsWithCRLFCRLF (sniffed client_fd reads stack m).header_buf
        (sniffed client_fd reads stack m).header_len) = true) ↔
      terminatorEndsAt (streamOf reads) m := by
  unfold terminatorEndsAt endsWithCRLFCRLF sniffed streamOf
  simp only [Bool.and_eq_true, decide_eq_true_eq]
  constructor
  · rintro ⟨h4, ⟨⟨ha, hb⟩, hc⟩, hd⟩
    have e1 : m - 4 < m := by omega
    have e2 : m - 3 < m := by omega
    have e3 : m - 2 < m := by omega
    have e4 : m - 1 < m := by omega
    simp only [e1, e2, e3, e4, if_true] at ha hb hc hd
    exact ⟨h4, ha, hb, hc, hd⟩
  · rintro ⟨h4, ha, hb, hc, hd⟩
    have e1 : m - 4 < m := by omega
    have e2 : m - 3 < m := by omega
    have e3 : m - 2 < m := by omega
    have e4 : m - 1 < m := by omega
    simp only [e1, e2, e3, e4, if_true]
    exact ⟨h4, ⟨⟨ha, hb⟩, hc⟩, hd⟩

/-- One iteration of the header loop from the state after `m` successful reads. -/
theorem sniffLoop_step (client_fd : Int) (reads : Nat → Recv1) (stack : Nat → Byte)
    (fuel m : Nat) :
    sniffLoop client_fd reads (fuel + 1) (sniffed client_fd reads stack m) =
      if m < HEADER_BUF_SIZE - 1 then
        if (reads m).n ≤ 0 then (.readFail, sniffFailed client_fd reads stack m)
        else if terminatorEndsAt (streamOf reads) (m + 1) then
          (.terminator, sniffed client_fd reads stack (m + 1))
        else sniffLoop client_fd reads fuel (sniffed client_fd reads stack (m + 1))
      else (.cap, sniffed client_fd reads stack m) := by
  have hst : (⟨poke (sniffed client_fd reads stack m).header_buf m (reads m).byte, m + 1,
      (sniffed client_fd reads stack m).events ++ [Event.recv client_fd m 1 (reads m).n
        [(reads m).byte]]⟩ : SniffState) = sniffed client_fd reads stack (m + 1) := by
    simp only [sniffed, poke_sniffed, List.range_succ, List.map_append, List.map_cons,
      List.map_nil, headerRead]
  have hlen : (sniffed client_fd reads stack m).events.length = m := by simp [sniffed]
  have hhl : (sniffed client_fd reads stack m).header_len = m := rfl
  have hp : poke (sniffed client_fd reads stack m).header_buf m (reads m).byte =
      (sniffed client_fd reads stack (m + 1)).header_buf := poke_sniffed reads stack m
  have hst2 : (⟨(sniffed client_fd reads stack (m + 1)).header_buf, m + 1,
      (sniffed client_fd reads stack m).events ++ [Event.recv client_fd m 1 (reads m).n
        [(reads m).byte]]⟩ : SniffState) = sniffed client_fd reads stack (m + 1) := by
    rw [← hp]; exact hst
  rw [sniffLoop]
  simp only [hlen, hhl, hp, hst2]
  by_cases hm : m < HEADER_BUF_SIZE - 1
  · simp only [hm, if_true]
    by_cases hn : (reads m).n ≤ 0
    · simp only [hn, if_true]
      rfl
    · simp only [hn, if_false]
      by_cases ht : terminatorEndsAt (streamOf reads) (m + 1)
      · have := (endsWith_sniffed client_fd reads stack (m + 1)).2 ht
        have this2 : (decide (4 ≤ m + 1) && endsWithCRLFCRLF
            (sniffed client_fd reads stack (m + 1)).header_buf (m + 1)) = true := this
        simp only [ht, if_true]
        rw [if_pos this2]
      · have : ¬ ((4 ≤ (sniffed client_fd reads stack (m + 1)).header_len &&
            endsWithCRLFCRLF (sniffed client_fd reads stack (m + 1)).header_buf
              (sniffed client_fd reads stack (m + 1)).header_len) = true) :=
          fun h => ht ((endsWith_sniffed client_fd reads stack (m + 1)).1 h)
        have this2 : ¬ (decide (4 ≤ m + 1) && endsWithCRLFCRLF
            (sniffed client_fd reads stack (m + 1)).header_buf (m + 1)) = true := this
        simp only [ht, if_false]
        rw [if_neg this2]
  · simp only [hm, if_false]

/-- Form of every result of the header loop: it stops after `m ≤ sizeof(header_buf) - 1`
successful reads, at a failing read, at a terminator or at the cap; with enough fuel it
never stops for lack of fuel. -/
theorem sniffLoop_cases (client_fd : Int) (reads : Nat → Recv1) (stack : Nat → Byte) :
    ∀ fuel m, m ≤ HEADER_BUF_SIZE - 1 → HEADER_BUF_SIZE - 1 - m < fuel →
    ∃ k, m ≤ k ∧ k ≤ HEADER_BUF_SIZE - 1 ∧
      (sniffLoop client_fd reads fuel (sniffed client_fd reads stack m) =
          (.readFail, sniffFailed client_fd reads stack k) ∧ k < HEADER_BUF_SIZE - 1 ∧
            (reads k).n ≤ 0 ∨
        sniffLoop client_fd reads fuel (sniffed client_fd reads stack m) =
          (.terminator, sniffed client_fd reads stack k) ∧
            terminatorEndsAt (streamOf reads) k ∨
        sniffLoop client_fd reads fuel (sniffed client_fd reads stack m) =
          (.cap, sniffed client_fd reads stack k) ∧ k = HEADER_BUF_SIZE - 1) := by
  intro fuel
  induction fuel with
  | zero => intro m _ h; omega
  | succ fuel ih =>
    intro m hm hfuel
    rw [sniffLoop_step]
    by_cases hlt : m < HEADER_BUF_SIZE - 1
    · simp only [hlt, if_true]
      by_cases hn : (reads m).n ≤ 0
      · exact ⟨m, le_refl _, hm, Or.inl ⟨by simp [hn], hlt, hn⟩⟩
      · simp only [hn, if_false]
        by_cases ht : terminatorEndsAt (streamOf reads) (m + 1)
        · exact ⟨m + 1, by omega, by omega, Or.inr (Or.inl ⟨by simp [ht], ht⟩)⟩
        · simp only [ht, if_false]
          obtain ⟨k, hk1, hk2, hk⟩ := ih (m + 1) (by omega) (by omega)
          exact ⟨k, by omega, hk2, hk⟩
    · simp only [hlt, if_false]
      exact ⟨m, le_refl _, hm, Or.inr (Or.inr ⟨rfl, by omega⟩)⟩

/-- The header loop runs through a prefix of the stream that is read without failure and
holds no terminator. -/
theorem sniffLoop_run (client_fd : Int) (reads : Nat → Recv1) (stack : Nat → Byte) :
    ∀ m fuel, m ≤ HEADER_BUF_SIZE - 1 → (∀ i < m, 0 < (reads i).n) →
      (∀ j ≤ m, ¬ terminatorEndsAt (streamOf reads) j) →
      sniffLoop client_fd reads (fuel + m) (sniffed client_fd reads stack 0) =
        sniffLoop client_fd reads fuel (sniffed client_fd reads stack m) := by
  intro m
  induction m with
  | zero => intro fuel _ _ _; rfl
  | succ m ih =>
    intro fuel hm hok hno
    have h1 := ih (fuel + 1) (by omega) (fun i hi => hok i (by omega))
      (fun j hj => hno j (by omega))
    have e : fuel + (m + 1) = fuel + 1 + m := by omega
    rw [e, h1, sniffLoop_step]
    have hlt : m < HEADER_BUF_SIZE - 1 := by omega
    have hn : ¬ (reads m).n ≤ 0 := by have := hok m (by omega); omega
    have ht : ¬ terminatorEndsAt (streamOf reads) (m + 1) := hno (m + 1) (le_refl _)
    simp only [hlt, hn, ht, if_true, if_false]

/-- Result of the header loop on a stream whose first terminator ends at `k`. -/
theorem sniff_terminator (client_fd : Int) (reads : Nat → Recv1) (stack : Nat → Byte) (k : Nat)
    (hk : k ≤ HEADER_BUF_SIZE - 1) (hok : ∀ i < k, 0 < (reads i).n)
    (hterm : terminatorEndsAt (streamOf reads) k)
    (hfirst : ∀ j < k, ¬ terminatorEndsAt (streamOf reads) j) :
    sniff client_fd reads stack = (.terminator, sniffed client_fd reads stack k) := by
  have hk4 : 4 ≤ k := hterm.1
  obtain ⟨m, rfl⟩ : ∃ m, k = m + 1 := ⟨k - 1, by omega⟩
  have hrun := sniffLoop_run client_fd reads stack m (HEADER_BUF_SIZE - m) (by omega)
    (fun i hi => hok i (by omega)) (fun j hj => hfirst j (by omega))
  have e : HEADER_BUF_SIZE - m + m = HEADER_BUF_SIZE := by omega
  have e2 : HEADER_BUF_SIZE - m = (HEADER_BUF_SIZE - m - 1) + 1 := by omega
  rw [e] at hrun
  unfold sniff
  rw [← sniffed_zero client_fd, hrun, e2, sniffLoop_step]
  have hlt : m < HEADER_BUF_SIZE - 1 := by omega
  have hn : ¬ (reads m).n ≤ 0 := by have := hok m (by omega); omega
  simp only [hlt, hn, hterm, if_true, if_false]

/-- Result of the header loop on a stream whose read number `m` fails before any
terminator and before the cap. -/
theorem sniff_readFail (client_fd : Int) (reads : Nat → Recv1) (stack : Nat → Byte) (m : Nat)
    (hm : m < HEADER_BUF_SIZE - 1) (hok : ∀ i < m, 0 < (reads i).n) (hfail : (reads m).n ≤ 0)
    (hno : ∀ j ≤ m, ¬ terminatorEndsAt (streamOf reads) j) :
    sniff client_fd reads stack = (.readFail, sniffFailed client_fd reads stack m) := by
  have hrun := sniffLoop_run client_fd reads stack m (HEADER_BUF_SIZE - m) (by omega) hok hno
  have e : HEADER_BUF_SIZE - m + m = HEADER_BUF_SIZE := by omega
  have e2 : HEADER_BUF_SIZE - m = (HEADER_BUF_SIZE - m - 1) + 1 := by omega
  rw [e] at hrun
  unfold sniff
  rw [← sniffed_zero client_fd, hrun, e2, sniffLoop_step]
  simp only [hm, hfail, if_true]

/-- Result of the header loop on a stream that delivers `sizeof(header_buf) - 1` bytes
without a terminator. -/
theorem sniff_cap (client_fd : Int) (reads : Nat → Recv1) (stack : Nat → Byte)
    (hok : ∀ i < HEADER_BUF_SIZE - 1, 0 < (reads i).n)
    (hno : ∀ j ≤ HEADER_BUF_SIZE - 1, ¬ terminatorEndsAt (streamOf reads) j) :
    sniff client_fd reads stack = (.cap, sniffed client_fd reads stack (HEADER_BUF_SIZE - 1)) := by
  have hrun := sniffLoop_run client_fd reads stack (HEADER_BUF_SIZE - 1) 1 (le_refl _) hok hno
  have e : 1 + (HEADER_BUF_SIZE - 1) = HEADER_BUF_SIZE := by simp [HEADER_BUF_SIZE]
  rw [e] at hrun
  unfold sniff
  rw [← sniffed_zero client_fd, hrun, sniffLoop_step]
  simp

/-- Form of every result of `sniff`. -/
theorem sniff_cases (client_fd : Int) (reads : Nat → Recv1) (stack : Nat → Byte) :
    ∃ k, k ≤ HEADER_BUF_SIZE - 1 ∧
      (sniff client_fd reads stack = (.readFail, sniffFailed client_fd reads stack k) ∧
          k < HEADER_BUF_SIZE - 1 ∧ (reads k).n ≤ 0 ∨
        sniff client_fd reads stack = (.terminator, sniffed client_fd reads stack k) ∧
          terminatorEndsAt (streamOf reads) k ∨
        sniff client_fd reads stack = (.cap, sniffed client_fd reads stack k) ∧
          k = HEADER_BUF_SIZE - 1) := by
  obtain ⟨k, _, hk, h⟩ := sniffLoop_cases client_fd reads stack HEADER_BUF_SIZE 0
    (Nat.zero_le _) (by simp [HEADER_BUF_SIZE])
  rw [sniffed_zero] at h
  exact ⟨k, hk, h⟩

theorem frame_sniffed (client_fd : Int) (reads : Nat → Recv1) (stack : Nat → Byte) (m : Nat) :
    (sniffed client_fd reads stack m).frame = (List.range m).map (streamOf reads) := by
  unfold SniffState.frame sniffed streamOf
  apply List.map_congr_left
  intro i hi
  simp [List.mem_range.1 hi]

/-! ## Lemmas on the handler -/

theorem filter_isRecv_headerReads (client_fd : Int) (reads : Nat → Recv1) (l : List Nat) :
    (l.map (headerRead client_fd reads)).filter Event.isRecv =
      l.map (headerRead client_fd reads) := by
  apply List.filter_eq_self.2
  intro e he
  obtain ⟨i, _, rfl⟩ := List.mem_map.1 he
  rfl

theorem bytesReceived_headerReads (client_fd : Int) (reads : Nat → Recv1) (m : Nat) :
    bytesReceived client_fd ((List.range m).map (headerRead client_fd reads)) =
      (List.range m).map (streamOf reads) := by
  induction m with
  | zero => rfl
  | succ m ih =>
    simp [List.range_succ, bytesReceived_append, ih, headerRead, bytesReceived, streamOf]

theorem dial_socketFailed (env : Env) (conn : connection_t) (st : SniffState)
    (h : env.socketRet < 0) :
    dial env conn st = ⟨.socketFailed,
      st.events ++ [Event.socket env.socketRet, Event.close conn.client_fd],
      st.frame, none, none, none⟩ := by
  have h2 : ¬ env.socketRet > 0 := by omega
  simp [dial, cleanup, h, h2]

theorem dial_connectFailed (env : Env) (conn : connection_t) (st : SniffState)
    (h : ¬ env.socketRet < 0) (hc : env.connectRet < 0) :
    dial env conn st = ⟨.connectFailed,
      st.events ++ dialEvents env ++ [Event.close env.socketRet] ++
        cleanup ⟨conn.client_fd, env.socketRet⟩,
      st.frame, none, none, none⟩ := by
  simp [dial, dialEvents, h, hc]

theorem dial_undefined (env : Env) (conn : connection_t) (st : SniffState)
    (h : ¬ env.socketRet < 0) (hc : ¬ env.connectRet < 0)
    (hr : selectResponse st.header_buf = none) :
    dial env conn st = ⟨.undefinedBehaviour, st.events ++ dialEvents env,
      st.frame, none, none, none⟩ := by
  simp [dial, dialEvents, h, hc, hr]

theorem dial_relay (env : Env) (conn : connection_t) (st : SniffState)
    (h : ¬ env.socketRet < 0) (hc : ¬ env.connectRet < 0) (response : List Byte)
    (hr : selectResponse st.header_buf = some response) :
    dial env conn st = relay env ⟨conn.client_fd, env.socketRet⟩
      (st.events ++ dialEvents env ++ [Event.send conn.client_fd response env.responseSendRet])
      st.frame response := by
  simp [dial, dialEvents, h, hc, hr]

/-- The three ways `relay` ends, by whether the two units have returned. -/
theorem relay_eq (env : Env) (conn : connection_t) (pre : List Event)
    (frame response : List Byte) :
    relay env conn pre frame response =
      ⟨if (pipe_data conn.client_fd conn.ssh_fd env.c2sRecv env.c2sSend).exit = .blocked ∨
          (pipe_data conn.ssh_fd conn.client_fd env.s2cRecv env.s2cSend).exit = .blocked
        then .relayPending else .relayed,
       pre ++ [Event.threadCreate conn.client_fd conn.ssh_fd,
          Event.threadCreate conn.ssh_fd conn.client_fd] ++
        (if (pipe_data conn.client_fd conn.ssh_fd env.c2sRecv env.c2sSend).exit = .blocked
          then []
         else if (pipe_data conn.ssh_fd conn.client_fd env.s2cRecv env.s2cSend).exit = .blocked
          then [Event.threadJoin conn.client_fd conn.ssh_fd]
         else [Event.threadJoin conn.client_fd conn.ssh_fd,
            Event.threadJoin conn.ssh_fd conn.client_fd] ++ cleanup conn),
       frame, some response,
       some (pipe_data conn.client_fd conn.ssh_fd env.c2sRecv env.c2sSend),
       some (pipe_data conn.ssh_fd conn.client_fd env.s2cRecv env.s2cSend)⟩ := by
  unfold relay
  by_cases h1 : (pipe_data conn.client_fd conn.ssh_fd env.c2sRecv env.c2sSend).exit = .blocked
  · simp [h1]
  · by_cases h2 : (pipe_data conn.ssh_fd conn.client_fd env.s2cRecv env.s2cSend).exit = .blocked
    · simp [h1, h2]
    · simp [h1, h2]

/-- Every run of `dial` starts with the events of the header loop and the `socket` call,
and makes no `recv` call after them. -/
theorem dial_trace (env : Env) (conn : connection_t) (st : SniffState) :
    ∃ tail, (dial env conn st).trace = st.events ++ Event.socket env.socketRet :: tail ∧
      (∀ e ∈ tail, e.isRecv = false) ∧ (dial env conn st).frame = st.frame ∧
      (dial env conn st).outcome ≠ .headerReadFailed ∧
      (dial env conn st).outcome ≠ .outOfFuel := by
  by_cases h : env.socketRet < 0
  · rw [dial_socketFailed env conn st h]
    exact ⟨[Event.close conn.client_fd], by simp, by simp [Event.isRecv], rfl, by simp, by simp⟩
  · by_cases hc : env.connectRet < 0
    · rw [dial_connectFailed env conn st h hc]
      refine ⟨[Event.optimize env.socketRet, Event.connect env.socketRet env.connectRet,
        Event.close env.socketRet] ++ cleanup ⟨conn.client_fd, env.socketRet⟩,
        by simp [dialEvents], ?_, rfl, by simp, by simp⟩
      intro e he
      unfold cleanup at he
      split at he <;> simp at he <;> rcases he with rfl | rfl | rfl | he <;>
        first | rfl | (try rcases he with rfl | rfl) <;> rfl
    · cases hr : selectResponse st.header_buf with
      | none =>
        rw [dial_undefined env conn st h hc hr]
        exact ⟨[Event.optimize env.socketRet, Event.connect env.socketRet env.connectRet],
          by simp [dialEvents], by simp [Event.isRecv], rfl, by simp, by simp⟩
      | some response =>
        rw [dial_relay env conn st h hc response hr, relay_eq]
        refine ⟨_, by simp only [dialEvents, List.append_assoc, List.cons_append,
          List.nil_append]; rfl, ?_, rfl, ?_, ?_⟩
        · intro e he
          unfold cleanup at he
          simp only [List.mem_cons, List.mem_append] at he
          rcases he with rfl | rfl | rfl | rfl | rfl | he
          · rfl
          · rfl
          · rfl
          · rfl
          · rfl
          · split at he
            · simp at he
            · split at he
              · simp at he; subst he; rfl
              · split at he <;> simp at he <;> rcases he with rfl | rfl | rfl | he <;>
                  first | rfl | (subst he; rfl)
        · simp only; split <;> simp
        · simp only; split <;> simp

/-- After the header loop the handler thread makes no `recv` call and keeps the frame. -/
theorem dial_recvs (env : Env) (conn : connection_t) (st : SniffState) :
    (dial env conn st).trace.filter Event.isRecv = st.events.filter Event.isRecv ∧
    (∀ fd, bytesReceived fd (dial env conn st).trace = bytesReceived fd st.events) ∧
    (dial env conn st).frame = st.frame := by
  obtain ⟨tail, ht, hno, hf, _, _⟩ := dial_trace env conn st
  have hf0 : (Event.socket env.socketRet :: tail).filter Event.isRecv = [] := by
    apply List.filter_eq_nil_iff.2
    intro e he
    rcases List.mem_cons.1 he with rfl | he
    · simp [Event.isRecv]
    · simp [hno e he]
  have hb : ∀ (fd : Int) (l : List Event), (∀ e ∈ l, e.isRecv = false) →
      bytesReceived fd l = [] := by
    intro fd l
    induction l with
    | nil => intro _; rfl
    | cons e l ih =>
      intro hl
      have h1 := hl e (List.mem_cons_self _ _)
      have h2 := ih (fun x hx => hl x (List.mem_cons_of_mem _ hx))
      cases e <;> simp_all [bytesReceived, Event.isRecv]
  refine ⟨by rw [ht, List.filter_append, hf0, List.append_nil], fun fd => ?_, hf⟩
  have hb2 : bytesReceived fd (Event.socket env.socketRet :: tail) = [] := by
    apply hb
    intro e he
    rcases List.mem_cons.1 he with rfl | he
    · rfl
    · exact hno e he
  rw [ht, bytesReceived_append, hb2, List.append_nil]

/-- A run whose header loop ends at the terminator or at the cap is a run of `dial`. -/
theorem handle_connection_of_sniff (env : Env) (conn : connection_t) (x : SniffExit)
    (st : SniffState) (hs : sniff conn.client_fd env.headerReads env.stack = (x, st))
    (hx : x = .terminator ∨ x = .cap) :
    handle_connection env conn = dial env conn st := by
  unfold handle_connection
  rw [hs]
  rcases hx with rfl | rfl <;> rfl

/-- A run whose header loop ends at a failing read goes to `cleanup`. -/
theorem handle_connection_of_readFail (env : Env) (conn : connection_t) (st : SniffState)
    (hs : sniff conn.client_fd env.headerReads env.stack = (.readFail, st)) :
    handle_connection env conn =
      ⟨.headerReadFailed, st.events ++ cleanup conn, st.frame, none, none, none⟩ := by
  unfold handle_connection
  rw [hs]

theorem mem_sniffed_events (client_fd : Int) (reads : Nat → Recv1) (stack : Nat → Byte)
    (k : Nat) (e : Event) :
    e ∈ (sniffed client_fd reads stack k).events ↔ ∃ i < k, e = headerRead client_fd reads i := by
  simp only [sniffed, List.mem_map, List.mem_range]
  constructor
  · rintro ⟨i, hi, rfl⟩; exact ⟨i, hi, rfl⟩
  · rintro ⟨i, hi, rfl⟩; exact ⟨i, hi, rfl⟩

theorem mem_sniffFailed_events (client_fd : Int) (reads : Nat → Recv1) (stack : Nat → Byte)
    (k : Nat) (e : Event) :
    e ∈ (sniffFailed client_fd reads stack k).events ↔
      (∃ i < k, e = headerRead client_fd reads i) ∨ e = Event.recv client_fd k 1 (reads k).n [] := by
  simp only [sniffFailed, List.mem_append, List.mem_map, List.mem_range, List.mem_singleton]
  constructor
  · rintro (⟨i, hi, rfl⟩ | h)
    · exact Or.inl ⟨i, hi, rfl⟩
    · exact Or.inr h
  · rintro (⟨i, hi, rfl⟩ | h)
    · exact Or.inl ⟨i, hi, rfl⟩
    · exact Or.inr h

theorem cleanup_accepted (client_fd : Int) :
    cleanup (accepted client_fd) = [Event.close client_fd] := by
  simp [cleanup, accepted]

/-- The run of `handle_connection` when read number `k` of the header fails. -/
theorem handle_connection_readFail (env : Env) (client_fd : Int) (k : Nat)
    (hs : sniff client_fd env.headerReads env.stack =
      (.readFail, sniffFailed client_fd env.headerReads env.stack k)) :
    handle_connection env (accepted client_fd) =
      ⟨.headerReadFailed,
        (List.range k).map (headerRead client_fd env.headerReads) ++
          [Event.recv client_fd k 1 (env.headerReads k).n [], Event.close client_fd],
        (sniffFailed client_fd env.headerReads env.stack k).frame, none, none, none⟩ := by
  rw [handle_connection_of_readFail env (accepted client_fd) _ hs, cleanup_accepted]
  simp [sniffFailed]

theorem headerRead_flags (client_fd : Int) (reads : Nat → Recv1) (i : Nat) :
    (headerRead client_fd reads i).isSend = false ∧
    (headerRead client_fd reads i).isSocket = false ∧
    (headerRead client_fd reads i).isThreadCreate = false ∧
    (headerRead client_fd reads i).isClose = false :=
  ⟨rfl, rfl, rfl, rfl⟩

/-- The inner loop makes only `send` calls. -/
theorem sendLoop_events (dst : Int) (chunk : List Byte) (sends : List (Nat → Int)) (sent : Nat) :
    ∀ e ∈ (sendLoop dst chunk sends sent).events, e.isSend = true := by
  induction sends generalizing sent with
  | nil => intro e he; unfold sendLoop at he; split at he <;> simp at he
  | cons f rest ih =>
    intro e he
    unfold sendLoop at he
    split at he
    · simp only at he
      split at he
      · simp only [List.mem_singleton] at he
        subst he; rfl
      · rcases List.mem_cons.1 he with h | h
        · subst h; rfl
        · exact ih _ e h
    · simp at he

/-- The relay loop makes only `recv` and `send` calls. -/
theorem pipeLoop_events (src dst : Int) (recvs : List RecvResult) (sends : List (Nat → Int)) :
    ∀ e ∈ (pipeLoop src dst recvs sends).2, e.isRecv = true ∨ e.isSend = true := by
  induction recvs generalizing sends with
  | nil => intro e he; simp [pipeLoop] at he
  | cons r rs ih =>
    intro e he
    unfold pipeLoop at he
    simp only at he
    split at he
    · simp only [List.mem_singleton] at he
      subst he; exact Or.inl rfl
    · split at he
      · rcases List.mem_cons.1 he with h | h
        · subst h; exact Or.inl rfl
        · exact Or.inr (sendLoop_events _ _ _ _ e h)
      · split at he
        · rcases List.mem_cons.1 he with h | h
          · subst h; exact Or.inl rfl
          · exact Or.inr (sendLoop_events _ _ _ _ e h)
        · rcases List.mem_cons.1 he with h | h
          · subst h; exact Or.inl rfl
          · rcases List.mem_append.1 h with h | h
            · exact Or.inr (sendLoop_events _ _ _ _ e h)
            · exact ih _ e h

/-! ## Lemmas on the response selection -/

/-- The C string at index `i` of a buffer whose first NUL from `i` on is at index `k`. -/
theorem c_string_of_first_nul (mem : Nat → Byte) (k : Nat) :
    ∀ room i, i ≤ k → k - i < room → (∀ j, i ≤ j → j < k → mem j ≠ 0) → mem k = 0 →
      c_string mem room i = some ((List.range' i (k - i)).map mem) := by
  intro room
  induction room with
  | zero => intro i _ h; omega
  | succ room ih =>
    intro i hik hroom hnz hz
    rw [c_string]
    by_cases hi : i = k
    · subst hi
      simp [hz]
    · have hlt : i < k := by omega
      have hne : mem i ≠ 0 := hnz i (le_refl _) hlt
      rw [if_neg hne, ih (i + 1) (by omega) (by omega) (fun j h1 h2 => hnz j (by omega) h2) hz]
      have e : k - i = (k - (i + 1)) + 1 := by omega
      rw [e, List.range'_succ]
      simp

/-- What the selection does when the bytes written hold no NUL and the stack held a NUL
right behind them: the response is decided by the frame. -/
theorem selectResponse_sniffed (client_fd : Int) (reads : Nat → Recv1) (stack : Nat → Byte)
    (k : Nat) (hk : k < HEADER_BUF_SIZE) (hnz : ∀ i < k, (reads i).byte ≠ 0)
    (hz : stack k = 0) :
    selectResponse (sniffed client_fd reads stack k).header_buf =
      some (if strstr ((List.range k).map (streamOf reads)) (bytes "websocket") ||
          strstr ((List.range k).map (streamOf reads)) (bytes "Upgrade")
        then RESPONSE_101 else RESPONSE_200) := by
  have hcs := c_string_of_first_nul (sniffed client_fd reads stack k).header_buf k
    HEADER_BUF_SIZE 0 (Nat.zero_le _) (by omega)
    (fun j _ hj => by
      show (if j < k then (reads j).byte else stack j) ≠ 0
      rw [if_pos hj]; exact hnz j hj)
    (by
      show (if k < k then (reads k).byte else stack k) = 0
      rw [if_neg (lt_irrefl k)]; exact hz)
  have hfr : (List.range' 0 (k - 0)).map (sniffed client_fd reads stack k).header_buf =
      (List.range k).map (streamOf reads) := by
    rw [Nat.sub_zero, ← List.range_eq_range']
    exact frame_sniffed client_fd reads stack k
  unfold selectResponse
  rw [hcs, hfr]

/-! ## Claims -/

/-- C1. One relay direction is byte-exact and order-preserving: whatever `recv` returns on
the source and whatever `send` returns on the destination (never more than the count
requested), the bytes accepted by `send`, in order, are a prefix of the concatenation of
the chunks `recv` returned, and they are equal to it when `pipe_data` left its loop
because `recv` returned a value `<= 0`. -/
theorem pipe_data_relay_exact (src dst : Int) (recvs : List RecvResult)
    (sends : List (Nat → Int)) (hsend : ∀ f ∈ sends, ∀ r, f r ≤ r) :
    bytesAccepted dst (pipe_data src dst recvs sends).trace <+:
        bytesReceived src (pipe_data src dst recvs sends).trace ∧
      ((pipe_data src dst recvs sends).exit = .recvEnd →
        bytesAccepted dst (pipe_data src dst recvs sends).trace =
          bytesReceived src (pipe_data src dst recvs sends).trace) := by
  obtain ⟨h1, h2⟩ := pipeLoop_spec src dst recvs sends hsend
  obtain ⟨he, ht⟩ := pipe_data_trace src dst recvs sends
  have ha : bytesAccepted dst (pipe_data src dst recvs sends).trace =
      bytesAccepted dst (pipeLoop src dst recvs sends).2 := by
    rw [ht, bytesAccepted_append]
    split <;> simp [bytesAccepted]
  have hr : bytesReceived src (pipe_data src dst recvs sends).trace =
      bytesReceived src (pipeLoop src dst recvs sends).2 := by
    rw [ht, bytesReceived_append]
    split <;> simp [bytesReceived]
  rw [ha, hr, he]
  exact ⟨h1, h2⟩

/-- Witness of C1: a source that delivers `[1,2,3]`, `[4,5]` and then end of stream, and a
destination that takes at most two bytes on the first call and everything offered on the
next two. -/
theorem pipe_data_relay_exact_witness :
    (∀ f ∈ ([fun r => min 2 r, fun r => r, fun r => r] : List (Nat → Int)),
      ∀ r : Nat, f r ≤ r) ∧
    (pipe_data 3 4 [.data [1, 2, 3], .data [4, 5], .data []]
      [fun r => min 2 r, fun r => r, fun r => r]).exit = .recvEnd ∧
    bytesAccepted 4 (pipe_data 3 4 [.data [1, 2, 3], .data [4, 5], .data []]
      [fun r => min 2 r, fun r => r, fun r => r]).trace = [1, 2, 3, 4, 5] := by
  have hs : ∀ f ∈ ([fun r => min 2 r, fun r => r, fun r => r] : List (Nat → Int)),
      ∀ r : Nat, f r ≤ r := by
    intro f hf r
    simp only [List.mem_cons, List.mem_singleton, List.not_mem_nil, or_false] at hf
    rcases hf with rfl | rfl | rfl
    · exact min_le_right _ _
    · exact le_refl _
    · exact le_refl _
  refine ⟨hs, by decide, ?_⟩
  have h := (pipe_data_relay_exact 3 4 [.data [1, 2, 3], .data [4, 5], .data []]
    [fun r => min 2 r, fun r => r, fun r => r] hs).2 (by decide)
  rw [h]
  decide

/-- C4. The header sniffer stops at the first terminator: when every one-byte read
succeeds and the first occurrence of `"\r\n\r\n"` in the client stream ends at byte
position `k` within the read limit `sizeof(header_buf) - 1`, `handle_connection` makes
exactly `k` calls of `recv`, each for one byte, the header frame is the first `k` bytes of
the stream, and these `k` bytes are all it takes from the client. -/
theorem sniffer_stops_at_first_terminator (env : Env) (client_fd : Int) (k : Nat)
    (hok : ∀ i, 0 < (env.headerReads i).n)
    (hk : k ≤ HEADER_BUF_SIZE - 1)
    (hterm : terminatorEndsAt (streamOf env.headerReads) k)
    (hfirst : ∀ j < k, ¬ terminatorEndsAt (streamOf env.headerReads) j) :
    (handle_connection env (accepted client_fd)).trace.filter Event.isRecv =
        (List.range k).map (headerRead client_fd env.headerReads) ∧
      ((handle_connection env (accepted client_fd)).trace.filter Event.isRecv).length = k ∧
      (handle_connection env (accepted client_fd)).frame =
        (List.range k).map (streamOf env.headerReads) ∧
      bytesReceived client_fd (handle_connection env (accepted client_fd)).trace =
        (List.range k).map (streamOf env.headerReads) := by
  have hs := sniff_terminator client_fd env.headerReads env.stack k hk (fun i _ => hok i)
    hterm hfirst
  have hh := handle_connection_of_sniff env (accepted client_fd) _ _ hs (Or.inl rfl)
  obtain ⟨h1, h2, h3⟩ := dial_recvs env (accepted client_fd)
    (sniffed client_fd env.headerReads env.stack k)
  have hev : (sniffed client_fd env.headerReads env.stack k).events =
      (List.range k).map (headerRead client_fd env.headerReads) := rfl
  rw [hh, h1, h3, frame_sniffed, hev, filter_isRecv_headerReads]
  have h2 := h2 client_fd
  rw [hev, bytesReceived_headerReads] at h2
  exact ⟨rfl, by simp, rfl, h2⟩


/-- Witness of C4: the request `GET_REQUEST` followed by bytes `A`; its terminator ends at
position 27 and the frame is the request. -/
theorem sniffer_stops_at_first_terminator_witness :
    (∀ i, 0 < ((envOf (readsThen GET_REQUEST 65) (fun _ => 0) 0 39).headerReads i).n) ∧
    terminatorEndsAt (streamOf (readsThen GET_REQUEST 65)) 27 ∧
    (∀ j < 27, ¬ terminatorEndsAt (streamOf (readsThen GET_REQUEST 65)) j) ∧
    (handle_connection (envOf (readsThen GET_REQUEST 65) (fun _ => 0) 0 39)
        (accepted 3)).frame = GET_REQUEST ∧
    ((handle_connection (envOf (readsThen GET_REQUEST 65) (fun _ => 0) 0 39)
        (accepted 3)).trace.filter Event.isRecv).length = 27 := by
  have hok : ∀ i, 0 < ((envOf (readsThen GET_REQUEST 65) (fun _ => 0) 0 39).headerReads i).n :=
    fun _ => Int.one_pos
  have ht : terminatorEndsAt (streamOf (readsThen GET_REQUEST 65)) 27 := by decide
  have hf : ∀ j < 27, ¬ terminatorEndsAt (streamOf (readsThen GET_REQUEST 65)) j := by decide
  have h := sniffer_stops_at_first_terminator
    (envOf (readsThen GET_REQUEST 65) (fun _ => 0) 0 39) 3 27 hok (by decide) ht hf
  refine ⟨hok, ht, hf, ?_, h.2.1⟩
  rw [h.2.2.1]
  decide

/-- C5. The header frame is bounded.  For every client stream and every prior content of
the stack: the header loop ends (the embedding never runs out of fuel), after at most
`sizeof(header_buf) - 1 = 16383` reads; the frame is shorter than 16384 bytes; every
`recv` of the handler stores inside `header_buf`; and when 16383 bytes arrive without a
terminator the handler goes on to `socket` with these 16383 bytes as the frame. -/
theorem header_frame_bounded (env : Env) (client_fd : Int) :
    (handle_connection env (accepted client_fd)).outcome ≠ .outOfFuel ∧
    ((handle_connection env (accepted client_fd)).trace.filter Event.isRecv).length ≤
      HEADER_BUF_SIZE - 1 ∧
    (handle_connection env (accepted client_fd)).frame.length < HEADER_BUF_SIZE ∧
    (∀ fd off len n data,
      Event.recv fd off len n data ∈ (handle_connection env (accepted client_fd)).trace →
        off + len ≤ HEADER_BUF_SIZE ∧ data.length ≤ len) ∧
    ((∀ i < HEADER_BUF_SIZE - 1, 0 < (env.headerReads i).n) →
      (∀ j ≤ HEADER_BUF_SIZE - 1, ¬ terminatorEndsAt (streamOf env.headerReads) j) →
      (handle_connection env (accepted client_fd)).frame =
          (List.range (HEADER_BUF_SIZE - 1)).map (streamOf env.headerReads) ∧
        Event.socket env.socketRet ∈ (handle_connection env (accepted client_fd)).trace ∧
        (handle_connection env (accepted client_fd)).outcome ≠ .headerReadFailed) := by
  have hsz : HEADER_BUF_SIZE = 16384 := rfl
  have key : ∀ (x : SniffExit) (k : Nat), (x = .terminator ∨ x = .cap) →
      k ≤ HEADER_BUF_SIZE - 1 →
      sniff client_fd env.headerReads env.stack =
        (x, sniffed client_fd env.headerReads env.stack k) →
      (handle_connection env (accepted client_fd)).outcome ≠ .outOfFuel ∧
      ((handle_connection env (accepted client_fd)).trace.filter Event.isRecv).length ≤
        HEADER_BUF_SIZE - 1 ∧
      (handle_connection env (accepted client_fd)).frame.length < HEADER_BUF_SIZE ∧
      (∀ fd off len n data,
        Event.recv fd off len n data ∈ (handle_connection env (accepted client_fd)).trace →
          off + len ≤ HEADER_BUF_SIZE ∧ data.length ≤ len) := by
    intro x k hx hk hs
    rw [handle_connection_of_sniff env (accepted client_fd) x _ hs hx]
    obtain ⟨tail, ht, hno, hf, _, ho⟩ := dial_trace env (accepted client_fd)
      (sniffed client_fd env.headerReads env.stack k)
    obtain ⟨hr, _, _⟩ := dial_recvs env (accepted client_fd)
      (sniffed client_fd env.headerReads env.stack k)
    refine ⟨ho, ?_, ?_, ?_⟩
    · rw [hr]
      have : (sniffed client_fd env.headerReads env.stack k).events =
          (List.range k).map (headerRead client_fd env.headerReads) := rfl
      rw [this, filter_isRecv_headerReads]
      simpa using hk
    · rw [hf, frame_sniffed]
      simp only [List.length_map, List.length_range]
      omega
    · intro fd off len n data hmem
      rw [ht] at hmem
      rcases List.mem_append.1 hmem with h1 | h1
      · obtain ⟨i, hi, he⟩ := (mem_sniffed_events _ _ _ _ _).1 h1
        simp only [headerRead, Event.recv.injEq] at he
        obtain ⟨_, rfl, rfl, _, rfl⟩ := he
        refine ⟨by omega, by simp⟩
      · rcases List.mem_cons.1 h1 with h2 | h2
        · cases h2
        · have := hno _ h2
          simp [Event.isRecv] at this
  obtain ⟨k, hk, h | h | h⟩ := sniff_cases client_fd env.headerReads env.stack
  · obtain ⟨hs, hlt, _⟩ := h
    rw [handle_connection_readFail env client_fd k hs]
    refine ⟨by simp, ?_, ?_, ?_, ?_⟩
    · simp only [List.filter_append, filter_isRecv_headerReads]
      simp [List.filter_cons, Event.isRecv]
      omega
    · simp only [SniffState.frame, sniffFailed, List.length_map, List.length_range]
      omega
    · intro fd off len n data hmem
      simp only [List.mem_append, List.mem_map, List.mem_range, List.mem_cons,
        List.mem_singleton, headerRead] at hmem
      rcases hmem with ⟨i, hi, he⟩ | he | he | he
      · simp only [Event.recv.injEq] at he
        obtain ⟨_, rfl, rfl, _, rfl⟩ := he
        exact ⟨by omega, by simp⟩
      · simp only [Event.recv.injEq] at he
        obtain ⟨_, rfl, rfl, _, rfl⟩ := he
        exact ⟨by omega, by simp⟩
      · cases he
      · cases he
    · intro hok hno
      have hcap := sniff_cap client_fd env.headerReads env.stack hok hno
      rw [hs] at hcap
      cases hcap
  · obtain ⟨hs, hterm⟩ := h
    obtain ⟨a, b, c, d⟩ := key _ k (Or.inl rfl) hk hs
    refine ⟨a, b, c, d, ?_⟩
    intro hok hno
    exact absurd hterm (hno k hk)
  · obtain ⟨hs, rfl⟩ := h
    obtain ⟨a, b, c, d⟩ := key _ _ (Or.inr rfl) hk hs
    refine ⟨a, b, c, d, ?_⟩
    intro _ _
    rw [handle_connection_of_sniff env (accepted client_fd) _ _ hs (Or.inr rfl)]
    obtain ⟨tail, ht, _, hf, ho, _⟩ := dial_trace env (accepted client_fd)
      (sniffed client_fd env.headerReads env.stack (HEADER_BUF_SIZE - 1))
    refine ⟨by rw [hf, frame_sniffed], ?_, ho⟩
    rw [ht]
    simp

/-- Witness of C5: a client that sends the byte `A` for ever. -/
theorem header_frame_bounded_witness :
    (∀ i < HEADER_BUF_SIZE - 1,
      0 < ((envOf (readsThen [] 65) (fun _ => 0) 0 39).headerReads i).n) ∧
    (∀ j ≤ HEADER_BUF_SIZE - 1, ¬ terminatorEndsAt (streamOf (readsThen [] 65)) j) ∧
    (handle_connection (envOf (readsThen [] 65) (fun _ => 0) 0 39) (accepted 3)).frame =
      (List.range (HEADER_BUF_SIZE - 1)).map (streamOf (readsThen [] 65)) ∧
    Event.socket 4 ∈
      (handle_connection (envOf (readsThen [] 65) (fun _ => 0) 0 39) (accepted 3)).trace := by
  have hok : ∀ i < HEADER_BUF_SIZE - 1,
      0 < ((envOf (readsThen [] 65) (fun _ => 0) 0 39).headerReads i).n :=
    fun _ _ => Int.one_pos
  have hno : ∀ j ≤ HEADER_BUF_SIZE - 1, ¬ terminatorEndsAt (streamOf (readsThen [] 65)) j := by
    intro j _ h
    have := h.2.1
    simp [streamOf, readsThen] at this
  have h := (header_frame_bounded (envOf (readsThen [] 65) (fun _ => 0) 0 39) 3).2.2.2.2 hok hno
  exact ⟨hok, hno, h.1, h.2.1⟩

/-- C6. When `connect` to the backend fails, whatever header the client sent,
`handle_connection` makes no `send` to the client, starts no relay direction and closes
the client descriptor. -/
theorem backend_unreachable_no_response (env : Env) (client_fd : Int)
    (hc : env.connectRet < 0) :
    (∀ e ∈ (handle_connection env (accepted client_fd)).trace,
      e.isSend = false ∧ e.isThreadCreate = false) ∧
    (handle_connection env (accepted client_fd)).response = none ∧
    (handle_connection env (accepted client_fd)).c2s = none ∧
    (handle_connection env (accepted client_fd)).s2c = none ∧
    Event.close client_fd ∈ (handle_connection env (accepted client_fd)).trace := by
  have key : ∀ (x : SniffExit) (k : Nat), (x = .terminator ∨ x = .cap) →
      sniff client_fd env.headerReads env.stack =
        (x, sniffed client_fd env.headerReads env.stack k) →
      (∀ e ∈ (handle_connection env (accepted client_fd)).trace,
        e.isSend = false ∧ e.isThreadCreate = false) ∧
      (handle_connection env (accepted client_fd)).response = none ∧
      (handle_connection env (accepted client_fd)).c2s = none ∧
      (handle_connection env (accepted client_fd)).s2c = none ∧
      Event.close client_fd ∈ (handle_connection env (accepted client_fd)).trace := by
    intro x k hx hs
    rw [handle_connection_of_sniff env (accepted client_fd) x _ hs hx]
    by_cases h : env.socketRet < 0
    · rw [dial_socketFailed env _ _ h]
      refine ⟨?_, rfl, rfl, rfl, by simp [accepted]⟩
      intro e he
      simp only [List.mem_append, List.mem_cons, List.mem_singleton, List.not_mem_nil,
        or_false] at he
      rcases he with he | rfl | rfl
      · obtain ⟨i, _, rfl⟩ := (mem_sniffed_events _ _ _ _ _).1 he
        exact ⟨rfl, rfl⟩
      · exact ⟨rfl, rfl⟩
      · exact ⟨rfl, rfl⟩
    · rw [dial_connectFailed env _ _ h hc]
      refine ⟨?_, rfl, rfl, rfl, by simp [accepted, cleanup]⟩
      intro e he
      simp only [dialEvents, cleanup, List.mem_append, List.mem_cons, List.mem_singleton,
        List.not_mem_nil, or_false] at he
      rcases he with ((he | rfl | rfl | rfl) | rfl) | rfl | he
      · obtain ⟨i, _, rfl⟩ := (mem_sniffed_events _ _ _ _ _).1 he
        exact ⟨rfl, rfl⟩
      · exact ⟨rfl, rfl⟩
      · exact ⟨rfl, rfl⟩
      · exact ⟨rfl, rfl⟩
      · exact ⟨rfl, rfl⟩
      · exact ⟨rfl, rfl⟩
      · split at he
        · simp only [List.mem_singleton] at he
          subst he; exact ⟨rfl, rfl⟩
        · simp at he
  obtain ⟨k, _, h | h | h⟩ := sniff_cases client_fd env.headerReads env.stack
  · rw [handle_connection_readFail env client_fd k h.1]
    refine ⟨?_, rfl, rfl, rfl, by simp⟩
    intro e he
    simp only [List.mem_append, List.mem_map, List.mem_range, List.mem_cons,
      List.mem_singleton, List.not_mem_nil, or_false] at he
    rcases he with ⟨i, _, rfl⟩ | rfl | rfl
    · exact ⟨rfl, rfl⟩
    · exact ⟨rfl, rfl⟩
    · exact ⟨rfl, rfl⟩
  · exact key _ k (Or.inl rfl) h.1
  · exact key _ k (Or.inr rfl) h.1

/-- Witness of C6: the request `GET_REQUEST`, a backend socket `4` and a refused `connect`. -/
theorem backend_unreachable_no_response_witness :
    (envOf (readsOf GET_REQUEST) (fun _ => 0) (-1) 39).connectRet < 0 ∧
    (handle_connection (envOf (readsOf GET_REQUEST) (fun _ => 0) (-1) 39)
      (accepted 3)).outcome = .connectFailed ∧
    (∀ e ∈ (handle_connection (envOf (readsOf GET_REQUEST) (fun _ => 0) (-1) 39)
      (accepted 3)).trace, e.isSend = false ∧ e.isThreadCreate = false) ∧
    Event.close 3 ∈ (handle_connection (envOf (readsOf GET_REQUEST) (fun _ => 0) (-1) 39)
      (accepted 3)).trace := by
  have h := backend_unreachable_no_response
    (envOf (readsOf GET_REQUEST) (fun _ => 0) (-1) 39) 3 (by decide)
  exact ⟨by decide, by decide, h.1, h.2.2.2.2⟩

/-- C8. A header read failure aborts the connection: when read number `m` returns end of
stream or an error before a terminator was seen and before the cap, with the `m` reads
before it successful (`m = 0`: the peer closes before sending anything),
`handle_connection` makes the `m + 1` reads and then only closes the client descriptor,
once: no `socket`, no `send`, no relay direction. -/
theorem header_read_failure_aborts (env : Env) (client_fd : Int) (m : Nat)
    (hm : m < HEADER_BUF_SIZE - 1) (hok : ∀ i < m, 0 < (env.headerReads i).n)
    (hfail : (env.headerReads m).n ≤ 0)
    (hno : ∀ j ≤ m, ¬ terminatorEndsAt (streamOf env.headerReads) j) :
    (handle_connection env (accepted client_fd)).outcome = .headerReadFailed ∧
    (handle_connection env (accepted client_fd)).trace =
      (List.range m).map (headerRead client_fd env.headerReads) ++
        [Event.recv client_fd m 1 (env.headerReads m).n [], Event.close client_fd] ∧
    (∀ e ∈ (handle_connection env (accepted client_fd)).trace,
      e.isSocket = false ∧ e.isSend = false ∧ e.isThreadCreate = false) ∧
    (handle_connection env (accepted client_fd)).response = none ∧
    (handle_connection env (accepted client_fd)).c2s = none ∧
    (handle_connection env (accepted client_fd)).s2c = none ∧
    ((handle_connection env (accepted client_fd)).trace.filter Event.isClose) =
      [Event.close client_fd] := by
  have hs := sniff_readFail client_fd env.headerReads env.stack m hm hok hfail hno
  rw [handle_connection_readFail env client_fd m hs]
  refine ⟨rfl, rfl, ?_, rfl, rfl, rfl, ?_⟩
  · intro e he
    simp only [List.mem_append, List.mem_map, List.mem_range, List.mem_cons,
      List.mem_singleton, List.not_mem_nil, or_false] at he
    rcases he with ⟨i, _, rfl⟩ | rfl | rfl
    · exact ⟨rfl, rfl, rfl⟩
    · exact ⟨rfl, rfl, rfl⟩
    · exact ⟨rfl, rfl, rfl⟩
  · simp only [List.filter_append]
    have : ((List.range m).map (headerRead client_fd env.headerReads)).filter Event.isClose
        = [] := by
      apply List.filter_eq_nil_iff.2
      intro e he
      obtain ⟨i, _, rfl⟩ := List.mem_map.1 he
      simp [headerRead, Event.isClose]
    rw [this]
    simp [List.filter_cons, Event.isClose]

/-- Witness of C8: a client that sends `GET ` and closes. -/
theorem header_read_failure_aborts_witness :
    (∀ i < 4, 0 < ((envOf (readsOf (bytes "GET ")) (fun _ => 0) 0 39).headerReads i).n) ∧
    ((envOf (readsOf (bytes "GET ")) (fun _ => 0) 0 39).headerReads 4).n ≤ 0 ∧
    (∀ j ≤ 4, ¬ terminatorEndsAt (streamOf (readsOf (bytes "GET "))) j) ∧
    (handle_connection (envOf (readsOf (bytes "GET ")) (fun _ => 0) 0 39)
      (accepted 3)).outcome = .headerReadFailed ∧
    ((handle_connection (envOf (readsOf (bytes "GET ")) (fun _ => 0) 0 39)
      (accepted 3)).trace.filter Event.isClose) = [Event.close 3] := by
  have h1 : ∀ i < 4,
      0 < ((envOf (readsOf (bytes "GET ")) (fun _ => 0) 0 39).headerReads i).n := by decide
  have h2 : ((envOf (readsOf (bytes "GET ")) (fun _ => 0) 0 39).headerReads 4).n ≤ 0 := by
    decide
  have h3 : ∀ j ≤ 4, ¬ terminatorEndsAt (streamOf (readsOf (bytes "GET "))) j := by decide
  have h := header_read_failure_aborts (envOf (readsOf (bytes "GET ")) (fun _ => 0) 0 39)
    3 4 (by decide) h1 h2 h3
  exact ⟨h1, h2, h3, h.1, h.2.2.2.2.2.2⟩

/-- C9. Half-close, then teardown.  The trace of a run of `pipe_data` whose loop was left,
for whatever reason, is the `recv` and `send` calls of the loop followed by
`shutdown(src, SHUT_RD)` and `shutdown(dst, SHUT_WR)`: the half-close comes after the
last call of the loop, these are its only two `shutdown` calls, and it makes no `close`.
In a run of `handle_connection` that started
the relay, the trace has no `close` while a direction has not returned, and once both
have returned it ends with the two joins followed by `close` of the client and, for a
positive descriptor, `close` of the backend, with no `close` before the joins. -/
theorem half_close_then_teardown :
    (∀ (src dst : Int) (recvs : List RecvResult) (sends : List (Nat → Int)),
      (pipe_data src dst recvs sends).exit ≠ .blocked →
        (pipe_data src dst recvs sends).trace =
            (pipeLoop src dst recvs sends).2 ++
              [Event.shutdownRd src, Event.shutdownWr dst] ∧
          (∀ e ∈ (pipeLoop src dst recvs sends).2, e.isRecv = true ∨ e.isSend = true) ∧
          (pipe_data src dst recvs sends).trace.filter Event.isShutdown =
            [Event.shutdownRd src, Event.shutdownWr dst] ∧
          ∀ e ∈ (pipe_data src dst recvs sends).trace, e.isClose = false) ∧
    (∀ (env : Env) (client_fd : Int) (t1 t2 : PipeRun),
      (handle_connection env (accepted client_fd)).c2s = some t1 →
      (handle_connection env (accepted client_fd)).s2c = some t2 →
        t1 = pipe_data client_fd env.socketRet env.c2sRecv env.c2sSend ∧
        t2 = pipe_data env.socketRet client_fd env.s2cRecv env.s2cSend ∧
        ((t1.exit = .blocked ∨ t2.exit = .blocked) →
          ∀ e ∈ (handle_connection env (accepted client_fd)).trace, e.isClose = false) ∧
        (t1.exit ≠ .blocked → t2.exit ≠ .blocked →
          ∃ pre, (∀ e ∈ pre, e.isClose = false) ∧
            (handle_connection env (accepted client_fd)).trace =
              pre ++ [Event.threadJoin client_fd env.socketRet,
                  Event.threadJoin env.socketRet client_fd, Event.close client_fd] ++
                (if env.socketRet > 0 then [Event.close env.socketRet] else []))) := by
  constructor
  · intro src dst recvs sends hne
    obtain ⟨he, ht⟩ := pipe_data_trace src dst recvs sends
    rw [he] at hne
    have hev := pipeLoop_events src dst recvs sends
    rw [ht, if_neg hne]
    refine ⟨rfl, hev, ?_, ?_⟩
    · rw [List.filter_append]
      have : (pipeLoop src dst recvs sends).2.filter Event.isShutdown = [] := by
        apply List.filter_eq_nil_iff.2
        intro e hmem
        rcases hev e hmem with h | h <;> cases e <;> simp_all [Event.isRecv, Event.isSend,
          Event.isShutdown]
      rw [this]
      simp [List.filter_cons, Event.isShutdown]
    · intro e hmem
      rcases List.mem_append.1 hmem with h | h
      · rcases hev e h with h1 | h1 <;> cases e <;> simp_all [Event.isRecv, Event.isSend,
          Event.isClose]
      · simp only [List.mem_cons, List.mem_singleton, List.not_mem_nil, or_false] at h
        rcases h with rfl | rfl <;> rfl
  · intro env client_fd t1 t2 h1 h2
    have key : ∀ (x : SniffExit) (k : Nat), (x = .terminator ∨ x = .cap) →
        sniff client_fd env.headerReads env.stack =
          (x, sniffed client_fd env.headerReads env.stack k) →
        t1 = pipe_data client_fd env.socketRet env.c2sRecv env.c2sSend ∧
        t2 = pipe_data env.socketRet client_fd env.s2cRecv env.s2cSend ∧
        ((t1.exit = .blocked ∨ t2.exit = .blocked) →
          ∀ e ∈ (handle_connection env (accepted client_fd)).trace, e.isClose = false) ∧
        (t1.exit ≠ .blocked → t2.exit ≠ .blocked →
          ∃ pre, (∀ e ∈ pre, e.isClose = false) ∧
            (handle_connection env (accepted client_fd)).trace =
              pre ++ [Event.threadJoin client_fd env.socketRet,
                  Event.threadJoin env.socketRet client_fd, Event.close client_fd] ++
                (if env.socketRet > 0 then [Event.close env.socketRet] else [])) := by
      intro x k hx hs
      have hh := handle_connection_of_sniff env (accepted client_fd) x _ hs hx
      rw [hh] at h1 h2 ⊢
      by_cases h : env.socketRet < 0
      · rw [dial_socketFailed env _ _ h] at h1
        cases h1
      · by_cases hc : env.connectRet < 0
        · rw [dial_connectFailed env _ _ h hc] at h1
          cases h1
        · cases hr : selectResponse (sniffed client_fd env.headerReads env.stack k).header_buf with
          | none =>
            rw [dial_undefined env _ _ h hc hr] at h1
            cases h1
          | some response =>
            rw [dial_relay env _ _ h hc response hr, relay_eq] at h1 h2 ⊢
            simp only [Option.some.injEq, accepted] at h1 h2
            subst h1
            subst h2
            have hpre : ∀ e ∈ (sniffed client_fd env.headerReads env.stack k).events ++
                dialEvents env ++ [Event.send client_fd response env.responseSendRet] ++
                [Event.threadCreate client_fd env.socketRet,
                  Event.threadCreate env.socketRet client_fd], e.isClose = false := by
              intro e he
              simp only [dialEvents, List.mem_append, List.mem_cons, List.mem_singleton,
                List.not_mem_nil, or_false] at he
              rcases he with (((he | rfl | rfl | rfl) | rfl) | rfl | rfl)
              · obtain ⟨i, _, rfl⟩ := (mem_sniffed_events _ _ _ _ _).1 he
                rfl
              all_goals rfl
            refine ⟨rfl, rfl, ?_, ?_⟩
            · intro hb e he
              simp only [accepted] at he
              rcases hb with hb | hb
              · rw [if_pos hb, List.append_nil] at he
                exact hpre e he
              · by_cases hb1 : (pipe_data client_fd env.socketRet env.c2sRecv
                    env.c2sSend).exit = .blocked
                · rw [if_pos hb1, List.append_nil] at he
                  exact hpre e he
                · rw [if_neg hb1, if_pos hb] at he
                  rcases List.mem_append.1 he with he | he
                  · exact hpre e he
                  · simp only [List.mem_singleton] at he
                    subst he; rfl
            · intro hb1 hb2
              refine ⟨_, hpre, ?_⟩
              simp only [accepted, if_neg hb1, if_neg hb2, cleanup]
              simp
    obtain ⟨k, _, h | h | h⟩ := sniff_cases client_fd env.headerReads env.stack
    · rw [handle_connection_readFail env client_fd k h.1] at h1
      cases h1
    · exact key _ k (Or.inl rfl) h.1
    · exact key _ k (Or.inr rfl) h.1

/-- Witness of C9: a relay in which the client sends `[1, 2]` and closes and the backend
sends `[7]` and closes. -/
theorem half_close_then_teardown_witness :
    (pipe_data 3 4 [.data [1, 2], .data []] [fun r => r]).exit ≠ .blocked ∧
    (pipe_data 3 4 [.data [1, 2], .data []] [fun r => r]).trace =
      (pipeLoop 3 4 [.data [1, 2], .data []] [fun r => r]).2 ++
        [Event.shutdownRd 3, Event.shutdownWr 4] ∧
    (pipeLoop 3 4 [.data [1, 2], .data []] [fun r => r]).2 =
      [Event.recv 3 0 BUFFER_SIZE 2 [1, 2], Event.send 4 [1, 2] 2,
        Event.recv 3 0 BUFFER_SIZE 0 []] ∧
    (pipe_data 3 4 [.data [1, 2], .data []] [fun r => r]).trace.filter Event.isShutdown =
      [Event.shutdownRd 3, Event.shutdownWr 4] ∧
    (handle_connection (envOf (readsOf GET_REQUEST) (fun _ => 0) 0 39) (accepted 3)).c2s =
      some (pipe_data 3 4 [.data [1, 2], .data []] [fun r => r]) ∧
    (handle_connection (envOf (readsOf GET_REQUEST) (fun _ => 0) 0 39) (accepted 3)).s2c =
      some (pipe_data 4 3 [.data [7], .data []] [fun r => r]) ∧
    ∃ pre, (∀ e ∈ pre, e.isClose = false) ∧
      (handle_connection (envOf (readsOf GET_REQUEST) (fun _ => 0) 0 39) (accepted 3)).trace =
        pre ++ [Event.threadJoin 3 4, Event.threadJoin 4 3, Event.close 3] ++
          [Event.close 4] := by
  have hA : (pipe_data 3 4 [.data [1, 2], .data []] [fun r => r]).exit ≠ .blocked := by decide
  have hB : (pipe_data 4 3 [.data [7], .data []] [fun r => r]).exit ≠ .blocked := by decide
  have h1 : (handle_connection (envOf (readsOf GET_REQUEST) (fun _ => 0) 0 39)
      (accepted 3)).c2s = some (pipe_data 3 4 [.data [1, 2], .data []] [fun r => r]) := by
    decide
  have h2 : (handle_connection (envOf (readsOf GET_REQUEST) (fun _ => 0) 0 39)
      (accepted 3)).s2c = some (pipe_data 4 3 [.data [7], .data []] [fun r => r]) := by
    decide
  have h := half_close_then_teardown
  exact ⟨hA, (h.1 3 4 _ _ hA).1, by decide, (h.1 3 4 _ _ hA).2.2.1, h1, h2,
    (h.2 (envOf (readsOf GET_REQUEST) (fun _ => 0) 0 39) 3 _ _ h1 h2).2.2.2 hA hB⟩

/-- C2, the code at the failing input.  The client sends a NUL byte and then
`Upgrade: websocket` and the blank line.  The captured frame is these 23 bytes and holds
both `Upgrade` and `websocket`, yet `strstr` stops at the NUL and the response sent is the
200 one, whatever the stack held and whatever `send` returns. -/
theorem upgrade_after_nul_gets_200 (stack : Nat → Byte) (sendRet : Int) :
    (handle_connection (envOf (readsOf NUL_UPGRADE) stack 0 sendRet)
      (accepted 3)).frame = NUL_UPGRADE ∧
    bytes "Upgrade" <:+: NUL_UPGRADE ∧ bytes "websocket" <:+: NUL_UPGRADE ∧
    (handle_connection (envOf (readsOf NUL_UPGRADE) stack 0 sendRet)
      (accepted 3)).response = some RESPONSE_200 ∧
    Event.send 3 RESPONSE_200 sendRet ∈
      (handle_connection (envOf (readsOf NUL_UPGRADE) stack 0 sendRet)
        (accepted 3)).trace := by
  have hs := sniff_terminator 3 (readsOf NUL_UPGRADE) stack 23 (by decide) (by decide)
    (by decide) (by decide)
  have hh := handle_connection_of_sniff (envOf (readsOf NUL_UPGRADE) stack 0 sendRet)
    (accepted 3) _ _ hs (Or.inl rfl)
  have hr : selectResponse (sniffed 3 (readsOf NUL_UPGRADE) stack 23).header_buf =
      some RESPONSE_200 := by
    have h0 : (sniffed 3 (readsOf NUL_UPGRADE) stack 23).header_buf 0 = 0 := rfl
    have e : HEADER_BUF_SIZE = 16383 + 1 := rfl
    have hcs : c_string (sniffed 3 (readsOf NUL_UPGRADE) stack 23).header_buf
        HEADER_BUF_SIZE 0 = some [] := by
      rw [e, c_string, if_pos h0]
    unfold selectResponse
    rw [hcs]
    decide
  have hsock : ¬ (envOf (readsOf NUL_UPGRADE) stack 0 sendRet).socketRet < 0 := by
    show ¬ (4 : Int) < 0
    decide
  have hconn : ¬ (envOf (readsOf NUL_UPGRADE) stack 0 sendRet).connectRet < 0 := by
    show ¬ (0 : Int) < 0
    decide
  have hd := dial_relay (envOf (readsOf NUL_UPGRADE) stack 0 sendRet) (accepted 3)
    (sniffed 3 (readsOf NUL_UPGRADE) stack 23) hsock hconn RESPONSE_200 hr
  have hfr : (List.range 23).map (streamOf (readsOf NUL_UPGRADE)) = NUL_UPGRADE := by decide
  have hi1 : bytes "Upgrade" <:+: NUL_UPGRADE := by decide
  have hi2 : bytes "websocket" <:+: NUL_UPGRADE := by decide
  rw [hh, hd, relay_eq]
  refine ⟨?_, hi1, hi2, rfl, ?_⟩
  · show (sniffed 3 (readsOf NUL_UPGRADE) stack 23).frame = NUL_UPGRADE
    rw [frame_sniffed, hfr]
  · simp [accepted, envOf]

/-- C3, the code at the failing input.  The client sends `GET_REQUEST`, which holds
neither `Upgrade` nor `websocket`.  When the stack held `Upgrade` and a NUL right behind
the 27 bytes written, the response sent is the 101 one; when it held NUL bytes, the 200
one.  The frame is the same in both runs. -/
theorem stale_stack_bytes_give_101 :
    (handle_connection (envOf (readsOf GET_REQUEST) (stackWith 27 (bytes "Upgrade")) 0 39)
      (accepted 3)).frame = GET_REQUEST ∧
    ¬ bytes "Upgrade" <:+: GET_REQUEST ∧ ¬ bytes "websocket" <:+: GET_REQUEST ∧
    (handle_connection (envOf (readsOf GET_REQUEST) (stackWith 27 (bytes "Upgrade")) 0 39)
      (accepted 3)).response = some RESPONSE_101 ∧
    Event.send 3 RESPONSE_101 39 ∈
      (handle_connection (envOf (readsOf GET_REQUEST) (stackWith 27 (bytes "Upgrade")) 0 39)
        (accepted 3)).trace ∧
    (handle_connection (envOf (readsOf GET_REQUEST) (fun _ => 0) 0 39)
      (accepted 3)).frame = GET_REQUEST ∧
    (handle_connection (envOf (readsOf GET_REQUEST) (fun _ => 0) 0 39)
      (accepted 3)).response = some RESPONSE_200 := by
  refine ⟨by decide, by decide, by decide, by decide, by decide, by decide, by decide⟩

/-- C7, the code at the failing input.  With `send` of the response returning `-1`, and
with `send` returning `10` of the 39 bytes, `handle_connection` still creates both relay
threads, and the client-to-backend direction forwards the client's bytes `[1, 2]`. -/
theorem response_send_failure_still_relays :
    (Event.send 3 RESPONSE_200 (-1) ∈
        (handle_connection (envOf (readsOf GET_REQUEST) (fun _ => 0) 0 (-1))
          (accepted 3)).trace ∧
      Event.threadCreate 3 4 ∈
        (handle_connection (envOf (readsOf GET_REQUEST) (fun _ => 0) 0 (-1))
          (accepted 3)).trace ∧
      Event.threadCreate 4 3 ∈
        (handle_connection (envOf (readsOf GET_REQUEST) (fun _ => 0) 0 (-1))
          (accepted 3)).trace ∧
      ((handle_connection (envOf (readsOf GET_REQUEST) (fun _ => 0) 0 (-1))
          (accepted 3)).c2s.map (fun t => bytesAccepted 4 t.trace)) = some [1, 2]) ∧
    (RESPONSE_200.length = 39 ∧
      Event.send 3 RESPONSE_200 10 ∈
        (handle_connection (envOf (readsOf GET_REQUEST) (fun _ => 0) 0 10)
          (accepted 3)).trace ∧
      Event.threadCreate 3 4 ∈
        (handle_connection (envOf (readsOf GET_REQUEST) (fun _ => 0) 0 10)
          (accepted 3)).trace ∧
      Event.threadCreate 4 3 ∈
        (handle_connection (envOf (readsOf GET_REQUEST) (fun _ => 0) 0 10)
          (accepted 3)).trace) := by
  refine ⟨⟨by decide, by decide, by decide, by decide⟩,
    ⟨by decide, by decide, by decide, by decide⟩⟩

/-- C10, the code at the failing input.  With `socket` returning `4` and `connect`
returning `-1`, the `close` calls of `handle_connection` are `close(4)`, `close(3)`,
`close(4)`: the backend descriptor is closed twice. -/
theorem connect_failure_closes_backend_twice :
    (handle_connection (envOf (readsOf GET_REQUEST) (fun _ => 0) (-1) 39)
      (accepted 3)).outcome = .connectFailed ∧
    (handle_connection (envOf (readsOf GET_REQUEST) (fun _ => 0) (-1) 39)
      (accepted 3)).trace.filter Event.isClose =
        [Event.close 4, Event.close 3, Event.close 4] ∧
    (handle_connection (envOf (readsOf GET_REQUEST) (fun _ => 0) (-1) 39)
      (accepted 3)).trace.count (Event.close 4) = 2 := by
  refine ⟨by decide, by decide, by decide⟩

end FastProxy
